import Mathlib

/-!
Shallow embedding of the queens-game backend (src/server/gameLogic.js and
src/server/index.js) together with theorems checking the natural-language
specification against it.

Randomness model: every call `Math.floor(Math.random() * n)` in the source is
modelled by drawing the next value `v` from an ambient stream of naturals and
reducing it modulo `n`.  Any sequence of results the JavaScript code can see is
represented by some stream, and conversely.  The stream is threaded through the
functions in explicit state-passing style (`Rand`), mirroring the order of the
`Math.random()` calls in the source exactly.
-/

namespace QueensGame

/-- A board cell, as the `{row, col}` objects used throughout the source. -/
structure Cell where
  row : Nat
  col : Nat
deriving DecidableEq, Repr

/-- The ambient stream of random draws: position `i` holds the `i`-th raw draw. -/
abbrev Rand := Nat → Nat

/-- Consume one raw draw from the stream. -/
def randNext (r : Rand) : Nat × Rand :=
  (r 0, fun i => r (i + 1))

/-- `Math.floor(Math.random() * n)`: one draw reduced into `[0, n)`. -/
def randBelow (n : Nat) (r : Rand) : Nat × Rand :=
  let (v, r1) := randNext r
  (v % n, r1)

/-- The `regions` grid: 8 rows of 8 cells, each `null` (unassigned) or a region id. -/
abbrev RegionsGrid := List (List (Option Nat))

/-- `regions[row][col]` (out-of-range reads give `none`, never reached in-source). -/
def cellAt (g : RegionsGrid) (row col : Nat) : Option Nat :=
  (g.getD row []).getD col none

/-- `regions[row][col] = v`. -/
def setCell (g : RegionsGrid) (row col : Nat) (v : Option Nat) : RegionsGrid :=
  g.set row ((g.getD row []).set col v)

/-- The all-`null` starting grid built at gameLogic.js:23. -/
def emptyGrid : RegionsGrid :=
  List.replicate 8 (List.replicate 8 (none : Option Nat))

/-- The four directions tried at gameLogic.js:98-103, in source order
(up, right, down, left). -/
def directions : List (Int × Int) :=
  [(-1, 0), (0, 1), (1, 0), (0, -1)]

/-- The inner `for (const {dr, dc} of directions)` loop of `growRegion`
(gameLogic.js:105-125): starting from the popped cell `(row, col)`, assign each
in-bounds unassigned neighbour to `regionId`, enqueue it, and break out as soon
as `cellsInRegion` reaches `targetSize`.  Returns the updated grid, count and
queue. -/
def growDirs (regionId row col : Nat) (target : Nat) :
    List (Int × Int) → RegionsGrid → Nat → List Cell → RegionsGrid × Nat × List Cell
  | [], g, cells, queue => (g, cells, queue)
  | (dr, dc) :: rest, g, cells, queue =>
    let nr : Int := (row : Int) + dr
    let nc : Int := (col : Int) + dc
    if 0 ≤ nr ∧ nr < 8 ∧ 0 ≤ nc ∧ nc < 8 ∧ cellAt g nr.toNat nc.toNat = none then
      let g1 := setCell g nr.toNat nc.toNat (some regionId)
      let cells1 := cells + 1
      let queue1 := queue ++ [⟨nr.toNat, nc.toNat⟩]
      if target ≤ cells1 then (g1, cells1, queue1)
      else growDirs regionId row col target rest g1 cells1 queue1
    else growDirs regionId row col target rest g cells queue

/-- The `while (queue.length > 0 && cellsInRegion < targetSize)` loop of
`growRegion` (gameLogic.js:91-126).  Each iteration consumes one draw to pick a
random queue index, removes that cell, and expands it with `growDirs`.

The `fuel` argument is only a recursion bound for Lean: every iteration removes
one queue entry and entries are enqueued only when a previously `null` cell is
assigned, so across one `growRegion` call at most `1 + 64` cells are ever
enqueued and the loop runs at most 65 iterations; callers pass fuel `128`,
which is therefore never exhausted. -/
def growLoop (regionId target : Nat) :
    Nat → RegionsGrid → Nat → List Cell → Rand → (RegionsGrid × Nat) × Rand
  | 0, g, cells, _, r => ((g, cells), r)
  | fuel + 1, g, cells, queue, r =>
    if queue.length = 0 ∨ target ≤ cells then ((g, cells), r)
    else
      let (v, r1) := randNext r
      let idx := v % queue.length
      let c := queue.getD idx ⟨0, 0⟩
      let queue1 := queue.eraseIdx idx
      let res := growDirs regionId c.row c.col target directions g cells queue1
      growLoop regionId target fuel res.1 res.2.1 res.2.2 r1

/-- `growRegion(regions, startRow, startCol, regionId)` (gameLogic.js:77-129):
assign the start cell, draw the target size (`Math.floor(Math.random()*10)+3`),
and run the queue loop.  Returns the updated grid and `cellsInRegion`. -/
def growRegion (g : RegionsGrid) (startRow startCol regionId : Nat) (r : Rand) :
    (RegionsGrid × Nat) × Rand :=
  let g0 := setCell g startRow startCol (some regionId)
  let (tv, r1) := randBelow 10 r
  let target := tv + 3
  growLoop regionId target 128 g0 1 [⟨startRow, startCol⟩] r1

/-- The seed-picking `do { ... } while (regions[startRow][startCol] !== null)`
loop of `generateRegions` (gameLogic.js:32-35).  Each try draws a row and a
column.  The loop is genuinely unbounded in the source (an adversarial draw
sequence repeats occupied cells forever), so it is bounded here by the explicit
`sf` parameter; a `none` result models an execution of the source that never
leaves this loop. -/
def seedPick : Nat → RegionsGrid → Rand → Option (Nat × Nat) × Rand
  | 0, _, r => (none, r)
  | n + 1, g, r =>
    let (sr, r1) := randBelow 8 r
    let (sc, r2) := randBelow 8 r1
    if cellAt g sr sc = none then (some (sr, sc), r2)
    else seedPick n g r2

/-- Remove the region id matching `target` from every cell, as the reset loop at
gameLogic.js:44-50 does.  The comparison value is the JavaScript number
`regionId` *after* the `regionId--` at line 42, hence an `Int` (for the first
region it is `-1`, which matches nothing). -/
def clearMatching (g : RegionsGrid) (target : Int) : RegionsGrid :=
  g.map (List.map fun c =>
    match c with
    | some n => if (n : Int) = target then none else some n
    | none => none)

/-- One iteration of the `for (let regionId = 0; ...)` loop of `generateRegions`
(gameLogic.js:29-54): pick a seed, grow the region, and either accept it
(recording the id and moving to the next) or — when fewer than 3 cells were
grown — execute the retry branch: `regionId--` followed by the reset loop that
clears every cell whose id equals the *decremented* value, after which the
`for` update returns the loop variable to the same region id.  Returns the
updated grid, the `usedRegionIds` list and the next loop value of `regionId`;
`none` models an execution stuck in the seed loop. -/
def regionStep (sf : Nat) (g : RegionsGrid) (used : List Nat) (regionId : Nat)
    (r : Rand) : Option (RegionsGrid × List Nat × Nat) × Rand :=
  match seedPick sf g r with
  | (none, r1) => (none, r1)
  | (some (sr, sc), r1) =>
    let res := growRegion g sr sc regionId r1
    let g1 := res.1.1
    let cells := res.1.2
    let r2 := res.2
    if cells < 3 then
      (some (clearMatching g1 ((regionId : Int) - 1), used, regionId), r2)
    else
      let used1 := if used.contains regionId then used else used ++ [regionId]
      (some (g1, used1, regionId + 1), r2)

/-- The whole `for` loop of `generateRegions`, iterated with `regionStep` until
`regionId` reaches 8.

The `lf` recursion bound is only for Lean: a failed attempt can clear the cells
of id `regionId - 1` at most once per id value (that id is never written
again), so at most `8 * 15` cells are ever returned to `null`; every iteration
permanently assigns at least its seed cell, so the loop runs at most
`8 + 64 + 120` iterations and a bound of `512` is never exhausted. -/
def fillRegions (sf : Nat) :
    Nat → RegionsGrid → List Nat → Nat → Rand → Option (RegionsGrid × List Nat) × Rand
  | 0, _, _, _, r => (none, r)
  | lf + 1, g, used, regionId, r =>
    if 8 ≤ regionId then (some (g, used), r)
    else
      match regionStep sf g used regionId r with
      | (none, r1) => (none, r1)
      | (some (g1, used1, rid1), r1) => fillRegions sf lf g1 used1 rid1 r1

/-- The final `allCellsFilled` scan of `generateRegions` (gameLogic.js:56-66). -/
def allCellsFilled (g : RegionsGrid) : Bool :=
  (List.range 8).all fun row => (List.range 8).all fun col => (cellAt g row col).isSome

/-- `generateRegions()` (gameLogic.js:21-74).  `fuel` bounds the
`return generateRegions()` self-call at line 70, which is unbounded in the
source; a `none` result models an execution that never returns (either the
regeneration recursion or a seed loop never finishing). -/
def generateRegions (sf : Nat) : Nat → Rand → Option RegionsGrid × Rand
  | 0, r => (none, r)
  | fuel + 1, r =>
    match fillRegions sf 512 emptyGrid [] 0 r with
    | (none, r1) => (none, r1)
    | (some (g, used), r1) =>
      if allCellsFilled g && used.length == 8 then (some g, r1)
      else generateRegions sf fuel r1

/-- `isUnderAttack(row, col, queens)` (gameLogic.js:202-212): `true` iff some
placed queen lies on a common diagonal with `(row, col)`
(`Math.abs(queen.row - row) === Math.abs(queen.col - col)`). -/
def isUnderAttack (row col : Nat) (queens : List Cell) : Bool :=
  queens.any fun q =>
    ((q.row : Int) - (row : Int)).natAbs = ((q.col : Int) - (col : Int)).natAbs

mutual

/-- The recursive `placeQueens(row)` of `findSolution` (gameLogic.js:153-198).
The mutable sets `usedRows`/`usedCols`/`usedRegions` and the `solution` array
are passed explicitly; the push/pop backtracking of the source corresponds to
passing the extended state into the recursive call and continuing the column
loop with the unextended state on failure.

`fuel` is only a structural-recursion bound: it decreases by exactly one on
every (mutual) call, and the call depth below `placeQueens g fuel row ...` is
at most `10 * (8 - row) + 9`, so the `fuel = 0` case is unreachable from
`findSolution`, which starts with fuel 128 (see `placeQueens_fuel_irrelevant`
below). -/
def placeQueens (g : RegionsGrid) : Nat → Nat → List Nat → List Nat →
    List (Option Nat) → List Cell → Option (List Cell)
  | 0, _, _, _, _, _ => none
  | fuel + 1, row, usedRows, usedCols, usedRegions, sol =>
    if 8 ≤ row then some sol
    else if usedRows.contains row then
      placeQueens g fuel (row + 1) usedRows usedCols usedRegions sol
    else
      tryCols g fuel row 0 usedRows usedCols usedRegions sol

/-- The `for (let col = 0; col < BOARD_SIZE; col++)` loop inside `placeQueens`
(gameLogic.js:165-194), starting at column `col`. -/
def tryCols (g : RegionsGrid) : Nat → Nat → Nat → List Nat → List Nat →
    List (Option Nat) → List Cell → Option (List Cell)
  | 0, _, _, _, _, _, _ => none
  | fuel + 1, row, col, usedRows, usedCols, usedRegions, sol =>
    if 8 ≤ col then none
    else
      let regionId := cellAt g row col
      if usedCols.contains col || usedRegions.contains regionId then
        tryCols g fuel row (col + 1) usedRows usedCols usedRegions sol
      else if isUnderAttack row col sol then
        tryCols g fuel row (col + 1) usedRows usedCols usedRegions sol
      else
        match placeQueens g fuel (row + 1) (row :: usedRows) (col :: usedCols)
            (regionId :: usedRegions) (sol ++ [⟨row, col⟩]) with
        | some s => some s
        | none => tryCols g fuel row (col + 1) usedRows usedCols usedRegions sol

end

/-- `findSolution(regions)` (gameLogic.js:132-199): run the backtracking search
from row 0 with empty state; `none` is the `return null` at line 150. -/
def findSolution (g : RegionsGrid) : Option (List Cell) :=
  placeQueens g 128 0 [] [] [] []

/-- The reasons carried by the `{valid: false, message}` results of
`validateQueenPlacement`; each constructor stands for the corresponding
message string of gameLogic.js:220/225/230/236. -/
inductive RejectReason where
  | rowConflict
  | colConflict
  | regionConflict
  | diagConflict
deriving DecidableEq, Repr

/-- The result object of `validateQueenPlacement`. -/
inductive ValResult where
  | ok
  | reject (reason : RejectReason)
deriving DecidableEq, Repr

/-- The board object `{regions, solution}` returned by `generatePuzzleBoard`. -/
structure Board where
  regions : RegionsGrid
  solution : Option (List Cell)
deriving DecidableEq, Repr

/-- `validateQueenPlacement(board, row, col, queens)` (gameLogic.js:215-241):
check row, column, region and diagonal conflicts against the given queens, in
source order. -/
def validateQueenPlacement (board : Board) (row col : Nat) (queens : List Cell) :
    ValResult :=
  let regionId := cellAt board.regions row col
  if queens.any fun q => q.row = row then .reject .rowConflict
  else if queens.any fun q => q.col = col then .reject .colConflict
  else if queens.any fun q => cellAt board.regions q.row q.col = regionId then
    .reject .regionConflict
  else if queens.any fun q =>
      ((q.row : Int) - (row : Int)).natAbs = ((q.col : Int) - (col : Int)).natAbs then
    .reject .diagConflict
  else .ok

/-- `generatePuzzleBoard()` (gameLogic.js:6-18): one call to `generateRegions`,
one call to `findSolution`, and the `{regions, solution}` object; there is no
retry when `findSolution` returns `null`.  The result is `none` only when the
modelled `generateRegions` execution never returns. -/
def generatePuzzleBoard (sf fuel : Nat) (r : Rand) : Option Board × Rand :=
  match generateRegions sf fuel r with
  | (none, r1) => (none, r1)
  | (some g, r1) => (some ⟨g, findSolution g⟩, r1)

/-! ## Session layer (src/server/index.js)

Rooms, players and the socket event handlers.  A handler is a function from
the global `gameRooms` state (plus the caller identity and payload) to the new
state and the list of outbound emissions; the in-place mutation of the room and
player objects in the source corresponds to functional update of the first
matching entry. -/

/-- A player object as created at index.js:38-44 (the `queens` and `marks`
arrays are the markers and flags). -/
structure Player where
  id : Nat
  name : String
  ready : Bool
  queens : List Cell
  marks : List Cell
deriving DecidableEq, Repr

/-- A game room as created at index.js:36-47. -/
structure Room where
  players : List Player
  gameStarted : Bool
  board : Option Board
deriving DecidableEq, Repr

/-- The global `gameRooms` object: an association of room ids to rooms. -/
abbrev GameState := List (String × Room)

/-- `gameRooms[roomId]` (first matching key). -/
def lookupRoom (st : GameState) (roomId : String) : Option Room :=
  (st.find? fun e => e.1 = roomId).map (·.2)

/-- Replace the room stored under `roomId` (the source mutates the object held
there in place). -/
def setRoom : GameState → String → Room → GameState
  | [], _, _ => []
  | e :: rest, roomId, room =>
    if e.1 = roomId then (roomId, room) :: rest
    else e :: setRoom rest roomId room

/-- Update the first player with the given id, as mutating the object found by
`room.players.find(p => p.id === socket.id)` does. -/
def updateFirstPlayer : List Player → Nat → (Player → Player) → List Player
  | [], _, _ => []
  | p :: rest, pid, f =>
    if p.id = pid then f p :: rest
    else p :: updateFirstPlayer rest pid f

/-- Error / rejection message identities used by the handlers; each constructor
stands for the corresponding literal string in index.js. -/
inductive ErrMsg where
  | gameRoomNotFound   -- "Game room not found"
  | gameNotStarted     -- "Game not started"
  | playerNotFound     -- "Player not found"
deriving DecidableEq, Repr

/-- Who an emission is addressed to: `socket.emit` (the caller only),
`io.to(roomId).emit` (every member of the socket room) or
`socket.to(roomId).emit` (every member except the caller). -/
inductive Audience where
  | caller
  | room (roomId : String)
  | others (roomId : String)
deriving DecidableEq, Repr

/-- The outbound event payloads the modelled handlers can emit. -/
inductive Payload where
  | errorEv (msg : ErrMsg)
  | invalidMove (reason : RejectReason)
  | invalidMoveCellHasQueen          -- markCell: "Cell already has a queen"
  | playerReadyChanged (pid : Nat) (ready : Bool)
  | gameCountdown
  | gameStart (board : Board)
  | queenPlaced (pid : Nat) (row col : Nat)
  | gameWon (pid : Nat) (name : String)
  | cellMarked (pid : Nat) (row col : Nat)
  | cellUnmarked (pid : Nat) (row col : Nat)
  | gameRestarted
  | newPuzzleRequested
deriving DecidableEq, Repr

/-- The `setTimeout` closure scheduled at index.js:139-141: it captures the
room id and the board value and, when it fires, emits `gameStart` — it holds no
generation token and checks nothing. -/
structure ScheduledTask where
  delayMs : Nat
  roomId : String
  board : Board
deriving DecidableEq, Repr

/-- Firing a scheduled task (the body of the `setTimeout` callback at
index.js:140): it emits `gameStart` with the captured board to the captured
room unconditionally; the current state `st` is not consulted at all. -/
def fireTask (st : GameState) (t : ScheduledTask) : List (Audience × Payload) :=
  [(Audience.room t.roomId, Payload.gameStart t.board)]

/-- The `playerReady` handler (index.js:108-144).  Returns the new state, the
emissions, the scheduled tasks and the advanced random stream (board generation
draws from it).  When the modelled board generation does not return
(`generatePuzzleBoard` gives `none`), the result models the handler never
finishing; no claim exercises that case. -/
def playerReadyHandler (sf fuel : Nat) (st : GameState) (callerId : Nat)
    (roomId : String) (ready : Bool) (r : Rand) :
    GameState × List (Audience × Payload) × List ScheduledTask × Rand :=
  match lookupRoom st roomId with
  | none => (st, [(Audience.caller, Payload.errorEv .gameRoomNotFound)], [], r)
  | some room =>
    match room.players.find? fun p => p.id = callerId with
    | none => (st, [], [], r)
    | some _ =>
      let players1 := updateFirstPlayer room.players callerId fun p => { p with ready := ready }
      let room1 := { room with players := players1 }
      let st1 := setRoom st roomId room1
      let evs := [(Audience.room roomId, Payload.playerReadyChanged callerId ready)]
      let allReady := players1.length = 2 ∧ ∀ p ∈ players1, p.ready
      if allReady ∧ ¬room1.gameStarted then
        match generatePuzzleBoard sf fuel r with
        | (none, r1) => (st1, evs, [], r1)
        | (some b, r1) =>
          let room2 := { room1 with board := some b, gameStarted := true }
          (setRoom st roomId room2,
           evs ++ [(Audience.room roomId, Payload.gameCountdown)],
           [⟨3000, roomId, b⟩], r1)
      else (st1, evs, [], r)

/-- The `placeQueen` handler (index.js:147-196).  Requires the board to be
present when the game is started (the source would throw otherwise; that
configuration is unreachable and modelled as emitting nothing). -/
def placeQueenHandler (st : GameState) (callerId : Nat) (roomId : String)
    (row col : Nat) : GameState × List (Audience × Payload) :=
  match lookupRoom st roomId with
  | none => (st, [(Audience.caller, Payload.errorEv .gameNotStarted)])
  | some room =>
    if ¬room.gameStarted then (st, [(Audience.caller, Payload.errorEv .gameNotStarted)])
    else
      match room.players.find? fun p => p.id = callerId with
      | none => (st, [(Audience.caller, Payload.errorEv .playerNotFound)])
      | some player =>
        match room.board with
        | none => (st, [])
        | some b =>
          match validateQueenPlacement b row col player.queens with
          | .reject reason => (st, [(Audience.caller, Payload.invalidMove reason)])
          | .ok =>
            let players1 := updateFirstPlayer room.players callerId fun p =>
              { p with queens := p.queens ++ [⟨row, col⟩] }
            let evs := [(Audience.room roomId, Payload.queenPlaced callerId row col)]
            if player.queens.length + 1 = 8 then
              -- win: emit gameWon and reset ready/queens/marks of every player;
              -- note index.js:188-194 does NOT clear room.board here
              let players2 := players1.map fun p =>
                { p with ready := false, queens := [], marks := [] }
              let room1 := { room with players := players2, gameStarted := false }
              (setRoom st roomId room1,
               evs ++ [(Audience.room roomId, Payload.gameWon callerId player.name)])
            else
              (setRoom st roomId { room with players := players1 }, evs)

/-- The `markCell` handler (index.js:199-242). -/
def markCellHandler (st : GameState) (callerId : Nat) (roomId : String)
    (row col : Nat) : GameState × List (Audience × Payload) :=
  match lookupRoom st roomId with
  | none => (st, [(Audience.caller, Payload.errorEv .gameNotStarted)])
  | some room =>
    if ¬room.gameStarted then (st, [(Audience.caller, Payload.errorEv .gameNotStarted)])
    else
      match room.players.find? fun p => p.id = callerId with
      | none => (st, [(Audience.caller, Payload.errorEv .playerNotFound)])
      | some player =>
        if player.queens.any fun q => q.row = row ∧ q.col = col then
          (st, [(Audience.caller, Payload.invalidMoveCellHasQueen)])
        else if player.marks.any fun m => m.row = row ∧ m.col = col then
          let players1 := updateFirstPlayer room.players callerId fun p =>
            { p with marks := p.marks.filter fun m => ¬(m.row = row ∧ m.col = col) }
          (setRoom st roomId { room with players := players1 },
           [(Audience.room roomId, Payload.cellUnmarked callerId row col)])
        else
          let players1 := updateFirstPlayer room.players callerId fun p =>
            { p with marks := p.marks ++ [⟨row, col⟩] }
          (setRoom st roomId { room with players := players1 },
           [(Audience.room roomId, Payload.cellMarked callerId row col)])

/-- The `restartGame` handler (index.js:245-264): reset started flag, board and
every player's ready/queens/marks. -/
def restartGameHandler (st : GameState) (roomId : String) :
    GameState × List (Audience × Payload) :=
  match lookupRoom st roomId with
  | none => (st, [(Audience.caller, Payload.errorEv .gameRoomNotFound)])
  | some room =>
    let players1 := room.players.map fun p =>
      { p with ready := false, queens := [], marks := [] }
    (setRoom st roomId { room with players := players1, gameStarted := false, board := none },
     [(Audience.room roomId, Payload.gameRestarted)])

/-! ## Specification-side predicates

These definitions follow the wording of the specification (§3, §4.1, §4.2,
§8); the theorems below compare the embedded source functions against them. -/

/-- Two cells lie on a common diagonal at any distance (the standard n-queens
diagonal rule, spec §4.2). -/
def diagConflict (a b : Cell) : Prop :=
  ((a.row : Int) - (b.row : Int)).natAbs = ((a.col : Int) - (b.col : Int)).natAbs

instance : DecidablePred fun p : Cell × Cell => diagConflict p.1 p.2 := by
  intro p; unfold diagConflict; infer_instance

instance (a b : Cell) : Decidable (diagConflict a b) := by
  unfold diagConflict; infer_instance

/-- The pairwise constraint between two markers, per spec §4.2: distinct
columns, distinct region ids, no common diagonal. -/
def constraintP (g : RegionsGrid) (a b : Cell) : Prop :=
  a.col ≠ b.col ∧ cellAt g a.row a.col ≠ cellAt g b.row b.col ∧ ¬diagConflict a b

instance (g : RegionsGrid) (a b : Cell) : Decidable (constraintP g a b) := by
  unfold constraintP; infer_instance

/-- A valid marker assignment for a regions grid, per spec §4.2: exactly one
marker per row 0..7 (in row order), all columns on the board, no two sharing a
column, a region id, or a diagonal. -/
def validAssignment (g : RegionsGrid) (s : List Cell) : Prop :=
  s.map Cell.row = List.range 8 ∧
  (∀ q ∈ s, q.col < 8) ∧
  s.Pairwise (constraintP g)

instance (g : RegionsGrid) (s : List Cell) : Decidable (validAssignment g s) := by
  unfold validAssignment; infer_instance

/-- The per-cell admissibility check of the search at row `row`, column `col`
against the already placed markers: the column is free, the region is free and
no diagonal attack — exactly the pruning conditions of gameLogic.js:169-176
expressed against the `solution` array instead of the mirror sets. -/
def okCell (g : RegionsGrid) (placed : List Cell) (row col : Nat) : Bool :=
  !(placed.any fun q => q.col = col) &&
  !(placed.any fun q => cellAt g q.row q.col = cellAt g row col) &&
  !(isUnderAttack row col placed)

/-- Admissibility of a column list `ext` for the rows from `row` on, each cell
checked against all earlier markers. -/
def extOk (g : RegionsGrid) : List Cell → Nat → List Nat → Bool
  | _, _, [] => true
  | placed, row, c :: rest =>
    okCell g placed row c && extOk g (placed ++ [⟨row, c⟩]) (row + 1) rest

/-- The cells of a column list starting at `row`. -/
def extCells (row : Nat) : List Nat → List Cell
  | [] => []
  | c :: rest => ⟨row, c⟩ :: extCells (row + 1) rest

/-- A complete admissible extension of `sol` from `row` to row 7. -/
def extFull (g : RegionsGrid) (sol : List Cell) (row : Nat) (ext : List Nat) : Prop :=
  ext.length = 8 - row ∧ (∀ c ∈ ext, c < 8) ∧ extOk g sol row ext = true

/-- The shape invariant of a partial solution: rows 0..row-1 in order, columns
on the board, pairwise constraints satisfied. -/
def PartialInv (g : RegionsGrid) (row : Nat) (sol : List Cell) : Prop :=
  row ≤ 8 ∧ sol.map Cell.row = List.range row ∧ (∀ q ∈ sol, q.col < 8) ∧
  sol.Pairwise (constraintP g)

/-- The full search invariant: the shape invariant plus agreement of the
mirror sets `usedRows`/`usedCols`/`usedRegions` with the `solution` array. -/
def SearchInv (g : RegionsGrid) (row : Nat) (ur uc : List Nat)
    (ureg : List (Option Nat)) (sol : List Cell) : Prop :=
  PartialInv g row sol ∧
  (∀ x, ur.contains x = true ↔ ∃ q ∈ sol, q.row = x) ∧
  (∀ x, uc.contains x = true ↔ ∃ q ∈ sol, q.col = x) ∧
  (∀ x, ureg.contains x = true ↔ ∃ q ∈ sol, cellAt g q.row q.col = x)

/-- Strict lexicographic order on column lists (earlier rows more significant):
the order in which the ascending-column backtracking search visits full
assignments. -/
def lexLE (a b : List Nat) : Prop :=
  a = b ∨ List.Lex (· < ·) a b

/-- The cells of a region id. -/
def regionCells (g : RegionsGrid) (id : Nat) : List Cell :=
  (List.range 8).flatMap fun r =>
    (List.range 8).filterMap fun c =>
      if cellAt g r c = some id then some ⟨r, c⟩ else none

/-- 4-adjacency of cells. -/
def adjacent (a b : Cell) : Bool :=
  (((a.row : Int) - b.row).natAbs + ((a.col : Int) - b.col).natAbs) = 1

/-- One expansion step of reachability inside a fixed cell set. -/
def expandStep (all : List Cell) (reached : List Cell) : List Cell :=
  reached ++ (all.filter fun c => c ∉ reached ∧ reached.any fun d => adjacent c d)

/-- Iterated expansion: 64 steps saturate any subset of the 8×8 board. -/
def reachClosure (all : List Cell) (start : List Cell) : List Cell :=
  Nat.rec start (fun _ acc => expandStep all acc) 64

/-- A region is 4-connected: every cell of the region is reachable from its
first cell through region cells. -/
def regionConnected (g : RegionsGrid) (id : Nat) : Bool :=
  match regionCells g id with
  | [] => true
  | c :: _ => (regionCells g id).all fun d => d ∈ reachClosure (regionCells g id) [c]

/-- The region ids in [0,8) that actually occur in the grid. -/
def idsPresent (g : RegionsGrid) : List Nat :=
  (List.range 8).filter fun id => ¬(regionCells g id).isEmpty

/-- The RegionGenerator contract of spec §4.1 / §8: every cell assigned an id
in [0,8), exactly 8 distinct ids used, each region with at least 3 cells and
4-connected. -/
def regionContract (g : RegionsGrid) : Bool :=
  ((List.range 8).all fun r => (List.range 8).all fun c =>
    match cellAt g r c with
    | some id => id < 8
    | none => false) &&
  (idsPresent g).length = 8 &&
  ((List.range 8).all fun id =>
    (regionCells g id).isEmpty || (3 ≤ (regionCells g id).length && regionConnected g id))

/-- Replaying a solution through `validateQueenPlacement` in row order,
validating each cell against the earlier ones (spec §8): `true` iff no step is
rejected. -/
def replayAccepts (b : Board) : List Cell → List Cell → Bool
  | _, [] => true
  | placed, c :: rest =>
    validateQueenPlacement b c.row c.col placed = ValResult.ok &&
    replayAccepts b (placed ++ [c]) rest

/-! ## Concrete inputs

Draw lists (see the randomness model above) exhibiting particular executions,
together with concrete session states. -/

/-- Turn a finite draw list into a stream (padding with 0). -/
def streamOf (l : List Nat) : Rand := fun i => l.getD i 0

/-- Draws steering `generateRegions` to a partition whose regions 2 and 3 both
lie entirely inside row 0 — a partition with no valid assignment (two regions
would both need their marker in row 0). -/
def c1list : List Nat :=
  [2,1,5,0,3,1, 2,4,6,0,3,1, 0,0,0,0,0, 0,3,2,0,0,0,0, 2,7,4,0,0,0,2,
   4,2,9,0,3,4,4,3,2, 4,4,9,0,0,0,1,2,3,4, 7,2,5,0,0,0,1,2]

/-- Draws steering `generateRegions` into the short-region retry: region 0 is
grown as a 5-cell hook enclosing the corner (7,7); the attempt for region 1
seeds at (7,7), grows a single cell and fails, and the reset branch then clears
region 0 (the post-decrement id) while keeping the failed cell.  The final
returned grid uses only 7 distinct ids and its region 1 is disconnected. -/
def c2list : List Nat :=
  [6,6,2,0, 7,7,0,0, 0,0,0,0, 1,2,9,0,0,0,3,5, 1,6,9,0,0,0,0,3,2,3,
   3,1,9,0,0,0,3,4,0, 5,0,3,0,1,1, 5,4,9,0,0,3,1,3, 7,3,3,0,0,0,0]

/-- One `for`-loop pass of `generateRegions` on these draws grows eight 3-cell
regions (seeds on first try, no retries), consumes exactly 32 draws and leaves
cells unassigned, so the final check fails and the source regenerates.  Played
periodically the stream makes every regeneration behave identically. -/
def c4list : List Nat :=
  [0,0,0,0, 2,0,0,0, 4,0,0,0, 6,0,0,0, 0,3,0,0, 2,3,0,0, 4,3,0,0, 6,3,0,0]

/-- The 32-periodic stream driving `generateRegions` into endless regeneration. -/
def c4stream : Rand := fun i => c4list.getD (i % 32) 0

/-- Draws (from an LCG run) on which `generateRegions` succeeds after several
regenerations and the produced partition admits a solution. -/
def c8list : List Nat :=
  [17747, 7107, 10365, 8312, 20622, 15796, 4173, 15543, 24392, 28207, 16493, 16966, 15933, 16665, 21733, 880,
   10532, 11084, 12219, 8608, 7139, 31320, 15356, 16760, 2676, 3066, 21900, 25777, 11157, 348, 25007, 1461,
   16946, 27154, 25683, 20734, 4499, 8913, 7715, 6188, 26693, 25581, 32588, 23273, 28105, 15257, 31501, 381,
   7935, 28636, 2049, 9520, 9553, 1109, 22828, 611, 29856, 24496, 7111, 28781, 23534, 19684, 17868, 31542,
   29904, 21554, 16704, 31382, 7569, 10205, 67, 17259, 27174, 8362, 17880, 20092, 14294, 1558, 12149, 28945,
   20390, 7770, 19274, 846, 17286, 16927, 18257, 4179, 29244, 28673, 1306, 27670, 24084, 7110, 7764, 19195,
   16964, 13659, 9754, 14136, 4897, 9106, 13059, 32747, 21764, 11933, 32232, 32248, 30202, 5706, 8563, 19108,
   5679, 20476, 18029, 17395, 27416, 10349, 18628, 31425, 10594, 17701, 8541, 26275, 8605, 16825, 8351, 31611,
   31656, 25796, 17851, 31965, 15579, 10407, 16061, 11045, 1271, 5120, 23892, 9812, 11726, 7659, 3169, 8879,
   14770, 6651, 4674, 19222, 15519, 26615, 11227, 27941, 11304, 25428, 19560, 19212, 16930, 20086, 3590, 12079,
   24082, 13735, 7930, 7548, 4439, 1491, 14280, 16016, 16919, 21257, 26101, 24713, 4330, 2738, 14230, 10665,
   27977, 3471, 5025, 22704, 1205, 28020, 19184, 12022, 30887, 19142, 11796, 24650, 1850, 3510, 13279, 9357,
   4762, 30522, 31920, 18190, 13100, 17872, 15996, 20389, 16507, 27122, 26017, 8590, 31973, 1624, 30315, 11275,
   20490, 14320, 31586, 2232, 15344, 24990, 3161, 9132, 30966, 30643, 14904, 18772, 25727, 1839, 27524, 13840,
   11866, 29879, 30131, 906, 28915, 12116, 32562, 4059, 8251, 21233, 30258, 14940, 31577, 30355, 10294, 4684,
   27917, 8790, 18014, 21286, 1768, 10539, 25201, 19136, 814, 25171, 12459, 1315, 31110, 32410, 6732, 23086,
   12904, 30036, 27869, 14569, 17731, 17689, 12864, 19626, 28017, 1088, 32127, 22506, 16859, 32028, 14417, 24804,
   15212, 20985, 15723, 3059, 13879, 25812, 19341, 16297, 22887, 32478, 7496, 28334, 4586, 29615, 12687, 9055,
   3037, 15434, 4357, 10530, 22198, 17877, 7168, 28555, 8243, 28693, 11616, 816, 12806, 30635, 7699, 14412,
   7741, 18448, 30051, 25366, 18035, 29010, 20998, 14815, 10680, 15756, 22500, 15598, 9537, 8742, 11942, 16412,
   5072, 2258, 23811, 29230]

/-- The regions grid `generateRegions` produces on the draws of `c8list`. -/
def gridC8 : RegionsGrid :=
  [ [some 0, some 0, some 2, some 2, some 2, some 2, some 2, some 3],
    [some 0, some 0, some 2, some 2, some 2, some 2, some 3, some 3],
    [some 0, some 0, some 2, some 2, some 2, some 3, some 3, some 3],
    [some 0, some 4, some 4, some 4, some 4, some 4, some 3, some 3],
    [some 6, some 4, some 4, some 4, some 4, some 4, some 5, some 3],
    [some 6, some 6, some 1, some 4, some 4, some 7, some 5, some 5],
    [some 6, some 1, some 1, some 1, some 7, some 7, some 5, some 5],
    [some 6, some 6, some 1, some 7, some 7, some 5, some 5, some 5] ]

/-- The solution `findSolution` computes for `gridC8`. -/
def solC8 : List Cell :=
  [⟨0,1⟩, ⟨1,4⟩, ⟨2,6⟩, ⟨3,3⟩, ⟨4,0⟩, ⟨5,7⟩, ⟨6,5⟩, ⟨7,2⟩]

/-- The board `generatePuzzleBoard` produces on the draws of `c8list`. -/
def bC8 : Board := ⟨gridC8, some solC8⟩

/-- A regions grid whose region ids equal the column index (used for concrete
session-level scenarios: marker constraints then reduce to the classic 8-queens
rules). -/
def colGrid : RegionsGrid :=
  (List.range 8).map fun _ => (List.range 8).map fun c => some c

/-- A concrete board over `colGrid`. -/
def colBoard : Board :=
  ⟨colGrid, none⟩

/-- Seven markers of the classic 8-queens solution 0,4,7,5,2,6,1,3. -/
def sevenQueens : List Cell :=
  [⟨0,0⟩, ⟨1,4⟩, ⟨2,7⟩, ⟨3,5⟩, ⟨4,2⟩, ⟨5,6⟩, ⟨6,1⟩]

/-- A started two-player room over `colBoard` where player 1 holds seven
markers. -/
def roomC6 : Room :=
  { players :=
      [ { id := 1, name := "Alice", ready := true, queens := sevenQueens,
          marks := [⟨2,2⟩] },
        { id := 2, name := "Bob", ready := true, queens := [⟨0,3⟩],
          marks := [⟨4,4⟩] } ],
    gameStarted := true,
    board := some colBoard }

/-- Session state holding only `roomC6` under id "R". -/
def stC6 : GameState := [("R", roomC6)]

/-- A started room for the flag-toggle witness. -/
def roomC9 : Room :=
  { players :=
      [ { id := 1, name := "Alice", ready := true, queens := [⟨0,0⟩],
          marks := [⟨3,3⟩, ⟨5,5⟩] },
        { id := 2, name := "Bob", ready := true, queens := [], marks := [] } ],
    gameStarted := true,
    board := some colBoard }

/-- Session state holding only `roomC9` under id "R". -/
def stC9 : GameState := [("R", roomC9)]

/-- A one-player room used for the non-member `playerReady` witness. -/
def stC10 : GameState :=
  [("R", { players := [{ id := 1, name := "Alice", ready := false, queens := [], marks := [] }],
           gameStarted := false, board := none })]

/-- An unstarted two-player room, both ready up next (used for the stale
`gameStart` scenario). -/
def stC7 : GameState :=
  [("R", { players :=
             [ { id := 1, name := "Alice", ready := true, queens := [], marks := [] },
               { id := 2, name := "Bob", ready := false, queens := [], marks := [] } ],
           gameStarted := false, board := none })]

/-- The flag-set effect of one accepted `markCell` call on the caller: remove
the cell when present, append it when absent (index.js:221-241). -/
def toggleMarks (row col : Nat) (marks : List Cell) : List Cell :=
  if marks.any (fun m => m.row = row ∧ m.col = col) then
    marks.filter fun m => ¬(m.row = row ∧ m.col = col)
  else marks ++ [⟨row, col⟩]

/-- The grid after the first `for`-iteration on the draws of `c2list`:
region 0 is the 5-cell plus-shape around (6,6), enclosing the corner (7,7). -/
def g1C3 : RegionsGrid :=
  [ List.replicate 8 none, List.replicate 8 none, List.replicate 8 none,
    List.replicate 8 none, List.replicate 8 none,
    [none, none, none, none, none, none, some 0, none],
    [none, none, none, none, none, some 0, some 0, some 0],
    [none, none, none, none, none, none, some 0, none] ]

/-- The grid after the failed attempt for region 1 on `g1C3`: the failed
attempt's cell (7,7) keeps id 1 while every region-0 cell has been cleared. -/
def g2C3 : RegionsGrid :=
  [ List.replicate 8 none, List.replicate 8 none, List.replicate 8 none,
    List.replicate 8 none, List.replicate 8 none, List.replicate 8 none,
    List.replicate 8 none,
    [none, none, none, none, none, none, none, some 1] ]

/-- Player lookup through the session state, for phrasing the toggle theorems. -/
def roomPlayerAt (st : GameState) (roomId : String) (pid : Nat) : Option Player :=
  (lookupRoom st roomId).bind fun room => room.players.find? fun p => p.id = pid

/-! ## Helper lemmas about the session state -/

theorem lookupRoom_setRoom_self (st : GameState) (roomId : String) (room1 room : Room)
    (h : lookupRoom st roomId = some room) :
    lookupRoom (setRoom st roomId room1) roomId = some room1 := by
  induction st with
  | nil => simp [lookupRoom] at h
  | cons e rest ih =>
    by_cases he : e.1 = roomId
    · simp [lookupRoom, setRoom, he, List.find?]
    · simp only [lookupRoom, setRoom, List.find?, decide_eq_false he, if_neg he] at h ⊢
      exact ih h

theorem find?_updateFirstPlayer (ps : List Player) (pid : Nat) (f : Player → Player)
    (p : Player) (hid : ∀ q, (f q).id = q.id)
    (h : ps.find? (fun q => q.id = pid) = some p) :
    (updateFirstPlayer ps pid f).find? (fun q => q.id = pid) = some (f p) := by
  induction ps with
  | nil => simp [List.find?] at h
  | cons q rest ih =>
    by_cases hq : q.id = pid
    · simp only [List.find?, decide_eq_true hq, Option.some.injEq] at h
      subst h
      simp [updateFirstPlayer, hq, List.find?, decide_eq_true (hid q ▸ hq)]
    · simp only [List.find?, decide_eq_false hq] at h
      simp only [updateFirstPlayer, hq, if_false, List.find?, decide_eq_false hq]
      exact ih h

theorem updateFirstPlayer_congr (ps : List Player) (pid : Nat) (f f' : Player → Player)
    (p : Player) (h : ps.find? (fun q => q.id = pid) = some p) (hf : f p = f' p) :
    updateFirstPlayer ps pid f = updateFirstPlayer ps pid f' := by
  induction ps with
  | nil => rfl
  | cons q rest ih =>
    by_cases hq : q.id = pid
    · simp only [List.find?, decide_eq_true hq, Option.some.injEq] at h
      subst h
      simp [updateFirstPlayer, hq, hf]
    · simp only [List.find?, decide_eq_false hq] at h
      simp [updateFirstPlayer, hq, ih h]

/-! ## Claim theorems -/

/-- C10: if `playerReady` is invoked for an existing room by a caller who is
not a member of that room, the session state is left entirely unchanged and no
outbound event (success broadcast, error, or scheduled task) is produced. -/
theorem playerReady_nonmember_silent (sf fuel : Nat) (st : GameState) (callerId : Nat)
    (roomId : String) (ready : Bool) (r : Rand) (room : Room)
    (h1 : lookupRoom st roomId = some room)
    (h2 : room.players.find? (fun p => p.id = callerId) = none) :
    playerReadyHandler sf fuel st callerId roomId ready r = (st, [], [], r) := by
  unfold playerReadyHandler
  rw [h1]
  dsimp only
  rw [h2]

/-- Witness for C10 at a concrete one-player room and caller id 2. -/
theorem playerReady_nonmember_silent_witness :
    playerReadyHandler 0 0 stC10 2 "R" true (streamOf []) = (stC10, [], [], streamOf []) :=
  playerReady_nonmember_silent 0 0 stC10 2 "R" true (streamOf []) _ rfl rfl

/-- One `markCell` call by a member of a started room, on a cell without the
caller's own marker, toggles that player's flag set: it replaces the found
player's marks with the filtered list (when the cell was flagged) or the
appended list (when it was not), emitting the matching event. -/
theorem markCell_step (st : GameState) (callerId : Nat) (roomId : String)
    (row col : Nat) (room : Room) (player : Player)
    (h1 : lookupRoom st roomId = some room)
    (h2 : room.gameStarted = true)
    (h3 : room.players.find? (fun p => p.id = callerId) = some player)
    (h4 : player.queens.any (fun q => q.row = row ∧ q.col = col) = false) :
    markCellHandler st callerId roomId row col
      = (setRoom st roomId
          { room with
            players := updateFirstPlayer room.players callerId fun p =>
                         { p with marks := toggleMarks row col p.marks } },
         [(Audience.room roomId,
           if player.marks.any (fun m => m.row = row ∧ m.col = col) then
             Payload.cellUnmarked callerId row col
           else Payload.cellMarked callerId row col)]) := by
  unfold markCellHandler toggleMarks
  rw [h1]
  dsimp only
  rw [h2]
  rw [if_neg (by simp)]
  rw [h3]
  dsimp only
  rw [h4]
  rw [if_neg (by simp)]
  by_cases hm : (player.marks.any fun m => m.row = row ∧ m.col = col) = true
  · rw [hm]
    rw [if_pos rfl]
    rw [updateFirstPlayer_congr room.players callerId
      (fun p => { p with
                  marks := if p.marks.any (fun m => m.row = row ∧ m.col = col) then
                             p.marks.filter fun m => ¬(m.row = row ∧ m.col = col)
                           else p.marks ++ [⟨row, col⟩] })
      (fun p => { p with marks := p.marks.filter fun m => ¬(m.row = row ∧ m.col = col) })
      player h3 (by simp only [hm, if_true])]
    simp
  · rw [Bool.not_eq_true] at hm
    rw [hm]
    rw [if_neg (by simp)]
    rw [updateFirstPlayer_congr room.players callerId
      (fun p => { p with
                  marks := if p.marks.any (fun m => m.row = row ∧ m.col = col) then
                             p.marks.filter fun m => ¬(m.row = row ∧ m.col = col)
                           else p.marks ++ [⟨row, col⟩] })
      (fun p => { p with marks := p.marks ++ [⟨row, col⟩] })
      player h3 (by simp only [hm, Bool.false_eq_true, if_false])]
    simp [hm]

theorem anyMatch_iff_mem (row col : Nat) (marks : List Cell) :
    (marks.any fun m => m.row = row ∧ m.col = col) = true ↔ (⟨row, col⟩ : Cell) ∈ marks := by
  simp only [List.any_eq_true, decide_eq_true_eq]
  constructor
  · rintro ⟨m, hm, hr, hc⟩
    cases m
    cases hr
    cases hc
    exact hm
  · intro h
    exact ⟨⟨row, col⟩, h, rfl, rfl⟩

theorem mem_toggleMarks_self (row col : Nat) (marks : List Cell) :
    (⟨row, col⟩ : Cell) ∈ toggleMarks row col marks ↔ (⟨row, col⟩ : Cell) ∉ marks := by
  unfold toggleMarks
  by_cases h : (marks.any fun m => m.row = row ∧ m.col = col) = true
  · rw [if_pos h]
    rw [anyMatch_iff_mem] at h
    simp [List.mem_filter, h]
  · rw [if_neg h]
    have h9 : (⟨row, col⟩ : Cell) ∉ marks :=
      fun hmem => h ((anyMatch_iff_mem row col marks).mpr hmem)
    simp [h9]

theorem mem_toggleMarks_twice (row col : Nat) (marks : List Cell) (c : Cell) :
    (c ∈ toggleMarks row col (toggleMarks row col marks)) ↔ c ∈ marks := by
  by_cases h : (marks.any fun m => m.row = row ∧ m.col = col) = true
  · have h1 : toggleMarks row col marks
        = marks.filter fun m => ¬(m.row = row ∧ m.col = col) := by
      unfold toggleMarks
      rw [if_pos h]
    have h2 : ((marks.filter fun m => ¬(m.row = row ∧ m.col = col)).any
        fun m => m.row = row ∧ m.col = col) = false := by
      rw [List.any_eq_false]
      intro m hm
      simp only [List.mem_filter, decide_eq_true_eq] at hm
      simp only [decide_eq_true_eq]
      exact hm.2
    rw [h1]
    unfold toggleMarks
    rw [if_neg (by rw [h2]; simp)]
    rw [anyMatch_iff_mem] at h
    by_cases hc : c = (⟨row, col⟩ : Cell)
    · subst hc
      simp [h]
    · simp only [List.mem_append, List.mem_filter, List.mem_singleton, hc, or_false,
        decide_eq_true_eq]
      constructor
      · rintro ⟨hmem, _⟩
        exact hmem
      · intro hmem
        refine ⟨hmem, ?_⟩
        intro ⟨hr, hcc⟩
        apply hc
        cases c
        cases hr
        cases hcc
        rfl
  · have h1 : toggleMarks row col marks = marks ++ [⟨row, col⟩] := by
      unfold toggleMarks
      rw [if_neg h]
    have h2 : ((marks ++ [(⟨row, col⟩ : Cell)]).any
        fun m => m.row = row ∧ m.col = col) = true := by
      rw [anyMatch_iff_mem]
      simp
    have h3 : ∀ m ∈ marks, ¬(m.row = row ∧ m.col = col) := by
      intro m hm hcontra
      apply h
      rw [List.any_eq_true]
      exact ⟨m, hm, by simp [hcontra.1, hcontra.2]⟩
    rw [h1]
    unfold toggleMarks
    rw [if_pos h2]
    rw [List.filter_append]
    have h4 : (marks.filter fun m => ¬(m.row = row ∧ m.col = col)) = marks := by
      rw [List.filter_eq_self]
      intro m hm
      simp only [decide_eq_true_eq]
      exact h3 m hm
    have h5 : (([(⟨row, col⟩ : Cell)]).filter fun m => ¬(m.row = row ∧ m.col = col)) = [] := by
      simp
    rw [h4, h5, List.append_nil]

/-- C9: for every started room, member player, and cell not holding that
player's own marker, performing `markCell` twice on the same cell returns the
player's flag set to its original state (same membership for every cell), and
the first toggle adds the flag iff it was absent (equivalently removes it iff
present). -/
theorem toggleFlag_twice_restores (st : GameState) (callerId : Nat) (roomId : String)
    (row col : Nat) (room : Room) (player : Player)
    (h1 : lookupRoom st roomId = some room)
    (h2 : room.gameStarted = true)
    (h3 : room.players.find? (fun p => p.id = callerId) = some player)
    (h4 : player.queens.any (fun q => q.row = row ∧ q.col = col) = false) :
    ∃ player1 player2,
      roomPlayerAt (markCellHandler st callerId roomId row col).1 roomId callerId
        = some player1 ∧
      roomPlayerAt (markCellHandler (markCellHandler st callerId roomId row col).1
        callerId roomId row col).1 roomId callerId = some player2 ∧
      ((⟨row, col⟩ : Cell) ∈ player1.marks ↔ (⟨row, col⟩ : Cell) ∉ player.marks) ∧
      (∀ c : Cell, c ∈ player2.marks ↔ c ∈ player.marks) := by
  have e1 := markCell_step st callerId roomId row col room player h1 h2 h3 h4
  have hst1 : (markCellHandler st callerId roomId row col).1
      = setRoom st roomId
          { room with
            players := updateFirstPlayer room.players callerId fun p =>
                         { p with marks := toggleMarks row col p.marks } } := by
    rw [e1]
  have h1a : lookupRoom (setRoom st roomId
      { room with
        players := updateFirstPlayer room.players callerId fun p =>
                     { p with marks := toggleMarks row col p.marks } }) roomId
      = some { room with
               players := updateFirstPlayer room.players callerId fun p =>
                            { p with marks := toggleMarks row col p.marks } } :=
    lookupRoom_setRoom_self st roomId _ room h1
  have h3a : (updateFirstPlayer room.players callerId fun p =>
        { p with marks := toggleMarks row col p.marks }).find?
        (fun p => p.id = callerId)
      = some { player with marks := toggleMarks row col player.marks } :=
    find?_updateFirstPlayer room.players callerId _ player (fun _ => rfl) h3
  have e2 := markCell_step _ callerId roomId row col _
    { player with marks := toggleMarks row col player.marks } h1a h2 h3a h4
  refine ⟨{ player with marks := toggleMarks row col player.marks },
    { player with marks := toggleMarks row col (toggleMarks row col player.marks) },
    ?_, ?_, ?_, ?_⟩
  · rw [hst1]
    unfold roomPlayerAt
    rw [h1a]
    simpa using h3a
  · rw [hst1]
    rw [e2]
    unfold roomPlayerAt
    rw [lookupRoom_setRoom_self _ roomId _ _ h1a]
    dsimp only
    have h3b := find?_updateFirstPlayer
      (updateFirstPlayer room.players callerId fun p =>
        { p with marks := toggleMarks row col p.marks })
      callerId (fun p => { p with marks := toggleMarks row col p.marks })
      { player with marks := toggleMarks row col player.marks } (fun _ => rfl) h3a
    simpa using h3b
  · exact mem_toggleMarks_self row col player.marks
  · intro c
    exact mem_toggleMarks_twice row col player.marks c

/-- Witness for C9: player 1 of a concrete started room toggles (5,5) twice;
the flag set returns to its original state and the first toggle removed the
flag that was present. -/
theorem toggleFlag_twice_restores_witness :
    ∃ player1 player2,
      roomPlayerAt (markCellHandler stC9 1 "R" 5 5).1 "R" 1 = some player1 ∧
      roomPlayerAt (markCellHandler (markCellHandler stC9 1 "R" 5 5).1 1 "R" 5 5).1 "R" 1
        = some player2 ∧
      ((⟨5, 5⟩ : Cell) ∈ player1.marks ↔ (⟨5, 5⟩ : Cell) ∉ (roomC9.players.getD 0 ⟨0, "", false, [], []⟩).marks) ∧
      (∀ c : Cell, c ∈ player2.marks ↔ c ∈ (roomC9.players.getD 0 ⟨0, "", false, [], []⟩).marks) :=
  toggleFlag_twice_restores stC9 1 "R" 5 5 roomC9
    (roomC9.players.getD 0 ⟨0, "", false, [], []⟩) rfl rfl rfl rfl

/-- C6 (amended): an accepted `placeQueen` by a member of a started room
appends the marker; when this is the caller's 8th marker the room is reset —
`gameStarted` becomes false and both players' ready flags, markers and flags
are cleared — with `queenPlaced` and `gameWon` emitted, and the round reset
never fires when the placement is not the 8th marker.  The board is retained
(index.js does not clear `room.board` on a win, unlike `restartGame`). -/
theorem placeQueen_eighth_resets (st : GameState) (callerId : Nat) (roomId : String)
    (row col : Nat) (room : Room) (player : Player) (b : Board)
    (h1 : lookupRoom st roomId = some room)
    (h2 : room.gameStarted = true)
    (h3 : room.players.find? (fun p => p.id = callerId) = some player)
    (hb : room.board = some b)
    (hv : validateQueenPlacement b row col player.queens = .ok) :
    (player.queens.length = 7 →
      ∃ room1, lookupRoom (placeQueenHandler st callerId roomId row col).1 roomId
          = some room1 ∧
        room1.gameStarted = false ∧
        room1.board = some b ∧
        (∀ p ∈ room1.players, p.ready = false ∧ p.queens = [] ∧ p.marks = []) ∧
        (placeQueenHandler st callerId roomId row col).2
          = [(Audience.room roomId, Payload.queenPlaced callerId row col),
             (Audience.room roomId, Payload.gameWon callerId player.name)]) ∧
    (player.queens.length ≠ 7 →
      ∃ room1, lookupRoom (placeQueenHandler st callerId roomId row col).1 roomId
          = some room1 ∧
        room1.gameStarted = true ∧
        room1.board = some b ∧
        room1.players = updateFirstPlayer room.players callerId
          (fun p => { p with queens := p.queens ++ [⟨row, col⟩] }) ∧
        (placeQueenHandler st callerId roomId row col).2
          = [(Audience.room roomId, Payload.queenPlaced callerId row col)]) := by
  unfold placeQueenHandler
  rw [h1]
  dsimp only
  rw [h2]
  rw [if_neg (by simp)]
  rw [h3]
  dsimp only
  rw [hb]
  dsimp only
  rw [hv]
  dsimp only
  constructor
  · intro hlen
    rw [if_pos (by omega)]
    refine ⟨_, lookupRoom_setRoom_self st roomId _ room h1, rfl, rfl, ?_, rfl⟩
    intro p hp
    simp only [List.mem_map] at hp
    obtain ⟨q, _, hq⟩ := hp
    subst hq
    exact ⟨rfl, rfl, rfl⟩
  · intro hlen
    rw [if_neg (by omega)]
    exact ⟨_, lookupRoom_setRoom_self st roomId _ room h1, rfl, rfl, rfl, rfl⟩

/-- Witness for C6: in the concrete room `roomC6`, player 1 (seven markers)
places the valid 8th marker (7,3) and the round resets with the board
retained; player 2 (one marker) places a valid marker and no reset fires. -/
theorem placeQueen_eighth_resets_witness :
    ((roomC6.players.getD 0 ⟨0, "", false, [], []⟩).queens.length = 7 →
      ∃ room1, lookupRoom (placeQueenHandler stC6 1 "R" 7 3).1 "R" = some room1 ∧
        room1.gameStarted = false ∧
        room1.board = some colBoard ∧
        (∀ p ∈ room1.players, p.ready = false ∧ p.queens = [] ∧ p.marks = []) ∧
        (placeQueenHandler stC6 1 "R" 7 3).2
          = [(Audience.room "R", Payload.queenPlaced 1 7 3),
             (Audience.room "R", Payload.gameWon 1 "Alice")]) ∧
    ((roomC6.players.getD 1 ⟨0, "", false, [], []⟩).queens.length ≠ 7 →
      ∃ room1, lookupRoom (placeQueenHandler stC6 2 "R" 1 6).1 "R" = some room1 ∧
        room1.gameStarted = true ∧
        room1.board = some colBoard ∧
        room1.players = updateFirstPlayer roomC6.players 2
          (fun p => { p with queens := p.queens ++ [⟨1, 6⟩] }) ∧
        (placeQueenHandler stC6 2 "R" 1 6).2
          = [(Audience.room "R", Payload.queenPlaced 2 1 6)]) :=
  ⟨(placeQueen_eighth_resets stC6 1 "R" 7 3 roomC6
      (roomC6.players.getD 0 ⟨0, "", false, [], []⟩) colBoard rfl rfl rfl rfl
      (by decide)).1,
   (placeQueen_eighth_resets stC6 2 "R" 1 6 roomC6
      (roomC6.players.getD 1 ⟨0, "", false, [], []⟩) colBoard rfl rfl rfl rfl
      (by decide)).2⟩

/-- Counterexample to C6 as stated: at a concrete win (player 1's 8th valid
marker) the reset does fire — `gameWon` is emitted and `gameStarted` becomes
false — yet the room's board is *not* cleared, contradicting the claimed
"the board is cleared". -/
theorem placeQueen_win_board_not_cleared :
    ∃ room1, lookupRoom (placeQueenHandler stC6 1 "R" 7 3).1 "R" = some room1 ∧
      room1.gameStarted = false ∧
      (placeQueenHandler stC6 1 "R" 7 3).2
        = [(Audience.room "R", Payload.queenPlaced 1 7 3),
           (Audience.room "R", Payload.gameWon 1 "Alice")] ∧
      ¬room1.board = none := by
  refine ⟨{ players := roomC6.players.map fun p =>
              { p with ready := false, queens := [], marks := [] },
            gameStarted := false, board := some colBoard }, ?_, rfl, ?_, ?_⟩ <;> decide

/-- C3 (the claim is the intended behaviour; the code violates it): after the
first loop iteration builds region 0 (= `g1C3`, reachable from the empty grid
on the draws of `c2list`), the retry for region 1 — seeded at the enclosed
corner (7,7), which grows only 1 < 3 cells — does NOT reset the cell just
assigned (it keeps id 1) and clears every cell of the previously completed
region 0 instead, because the reset loop compares against the post-decrement
region id. -/
theorem regionRetry_clears_wrong_cells :
    (regionStep 9 emptyGrid [] 0 (streamOf c2list)).1 = some (g1C3, [0], 1) ∧
    (regionStep 9 g1C3 [0] 1 (streamOf [7, 7, 0, 0])).1 = some (g2C3, [0], 1) ∧
    cellAt g2C3 7 7 = some 1 ∧
    cellAt g1C3 6 6 = some 0 ∧
    cellAt g2C3 6 6 = none := by
  refine ⟨?_, ?_, rfl, rfl, rfl⟩ <;> decide

/-- C1 (the claim is the intended behaviour; the code violates it): on the
draws of `c1list`, `generatePuzzleBoard` returns a board whose `solution` is
null — `generateRegions` and `findSolution` are invoked once each with no
retry loop, so a partition without a valid assignment (here: regions 2 and 3
both confined to row 0) is handed out with `solution = null`. -/
theorem generatePuzzleBoard_can_return_null_solution :
    ((generatePuzzleBoard 9 9 (streamOf c1list)).1.map Board.solution) = some none := by
  decide

/-- C2 (the claim is the intended behaviour; the code violates it): on the
draws of `c2list`, `generateRegions` returns a grid that fails the
RegionGenerator contract — only 7 distinct region ids occur (id 0 was wrongly
cleared by the short-region retry) and region 1 is not 4-connected (the kept
cell (7,7) of the failed attempt plus a later growth elsewhere). -/
theorem generateRegions_contract_violation :
    ((generateRegions 9 9 (streamOf c2list)).1.map fun g =>
      (regionContract g, (idsPresent g).length, regionConnected g 1))
      = some (false, 7, false) := by
  decide

/-- C4 (the claim is the intended behaviour; the code violates it): on the
32-periodic draw stream `c4stream` every `for`-loop pass completes (eight
3-cell regions, seeds found on the first try) but leaves cells unassigned, so
the `return generateRegions()` self-call at gameLogic.js:70 fires again with
the stream in the same state: there is no attempt cap and no fatal-error path,
and the modelled `generateRegions` returns for no recursion bound whatsoever
(it diverges on this execution). -/
theorem generateRegions_no_retry_bound :
    ∀ sf fuel : Nat, (generateRegions sf fuel c4stream).1 = none := by
  have hshift : (fun i => c4stream (i + 32)) = c4stream := by
    funext i
    unfold c4stream
    rw [Nat.add_mod_right]
  intro sf fuel
  induction fuel with
  | zero => rfl
  | succ fuel ih =>
    cases sf with
    | zero => rfl
    | succ n =>
      have hstep : generateRegions (n + 1) (fuel + 1) c4stream
          = generateRegions (n + 1) fuel (fun i => c4stream (i + 32)) := rfl
      rw [hstep, hshift]
      exact ih

/-- C7 (the claim is the intended behaviour; the code violates it): when both
players of room "R" ready up, the handler schedules the delayed `gameStart`
with the freshly generated board; after `restartGame` resets the room (board
cleared, unstarted), firing the scheduled task still emits `gameStart` with
the stale captured board to the room — the `setTimeout` closure carries no
generation token and consults no room state, so the stale delivery is applied
rather than dropped. -/
theorem gameStart_stale_delivery_not_dropped :
    (playerReadyHandler 64 16 stC7 2 "R" true (streamOf c8list)).2.2.1
      = [⟨3000, "R", bC8⟩] ∧
    ((lookupRoom (restartGameHandler
        (playerReadyHandler 64 16 stC7 2 "R" true (streamOf c8list)).1 "R").1 "R").map
      Room.board) = some none ∧
    ((lookupRoom (restartGameHandler
        (playerReadyHandler 64 16 stC7 2 "R" true (streamOf c8list)).1 "R").1 "R").map
      Room.gameStarted) = some false ∧
    fireTask (restartGameHandler
        (playerReadyHandler 64 16 stC7 2 "R" true (streamOf c8list)).1 "R").1
        ⟨3000, "R", bC8⟩
      = [(Audience.room "R", Payload.gameStart bC8)] := by
  refine ⟨?_, ?_, ?_, rfl⟩ <;> decide

/-! ## Solver correctness (C5) -/

theorem extCells_map_col (ext : List Nat) : ∀ row, (extCells row ext).map Cell.col = ext := by
  induction ext with
  | nil => intro row; rfl
  | cons c rest ih =>
    intro row
    simp only [extCells, List.map_cons, ih (row + 1)]

theorem lexLE_refl (a : List Nat) : lexLE a a := Or.inl rfl

theorem okCell_iff (g : RegionsGrid) (placed : List Cell) (row col : Nat) :
    okCell g placed row col = true ↔
      (∀ q ∈ placed, q.col ≠ col) ∧
      (∀ q ∈ placed, cellAt g q.row q.col ≠ cellAt g row col) ∧
      (∀ q ∈ placed, ¬diagConflict q ⟨row, col⟩) := by
  unfold okCell isUnderAttack diagConflict
  simp only [Bool.and_eq_true, Bool.not_eq_true', List.any_eq_false, decide_eq_true_eq,
    decide_eq_false_iff_not]
  constructor
  · rintro ⟨⟨h1, h2⟩, h3⟩
    exact ⟨h1, h2, fun q hq => h3 q hq⟩
  · rintro ⟨h1, h2, h3⟩
    exact ⟨⟨h1, h2⟩, fun q hq => h3 q hq⟩

theorem extFull_validAssignment (g : RegionsGrid) :
    ∀ ext sol row, PartialInv g row sol → extFull g sol row ext →
      validAssignment g (sol ++ extCells row ext) := by
  intro ext
  induction ext with
  | nil =>
    intro sol row hinv hfull
    obtain ⟨hrow8, hmap, hcols, hpw⟩ := hinv
    obtain ⟨hlen, _, _⟩ := hfull
    have h8 : row = 8 := by
      simp only [List.length_nil] at hlen
      omega
    subst h8
    refine ⟨?_, ?_, ?_⟩
    · simpa [extCells] using hmap
    · simpa [extCells] using hcols
    · simpa [extCells] using hpw
  | cons c rest ih =>
    intro sol row hinv hfull
    obtain ⟨hrow8, hmap, hcols, hpw⟩ := hinv
    obtain ⟨hlen, hbnd, hok⟩ := hfull
    simp only [List.length_cons] at hlen
    have hrowlt : row < 8 := by omega
    simp only [extOk, Bool.and_eq_true] at hok
    obtain ⟨hokc, hokrest⟩ := hok
    rw [okCell_iff] at hokc
    obtain ⟨hc1, hc2, hc3⟩ := hokc
    have hinv1 : PartialInv g (row + 1) (sol ++ [⟨row, c⟩]) := by
      refine ⟨by omega, ?_, ?_, ?_⟩
      · simp [hmap, List.range_succ]
      · intro q hq
        rcases List.mem_append.mp hq with hq | hq
        · exact hcols q hq
        · simp only [List.mem_singleton] at hq
          subst hq
          exact hbnd c (by simp)
      · rw [List.pairwise_append]
        refine ⟨hpw, by simp, ?_⟩
        intro a ha b hb
        simp only [List.mem_singleton] at hb
        subst hb
        exact ⟨hc1 a ha, hc2 a ha, hc3 a ha⟩
    have hfull1 : extFull g (sol ++ [⟨row, c⟩]) (row + 1) rest :=
      ⟨by omega, fun x hx => hbnd x (by simp [hx]), hokrest⟩
    have := ih (sol ++ [⟨row, c⟩]) (row + 1) hinv1 hfull1
    simpa [extCells, List.append_assoc] using this

theorem validAssignment_decomp (g : RegionsGrid) :
    ∀ tail sol row, PartialInv g row sol → validAssignment g (sol ++ tail) →
      ∃ ext, tail = extCells row ext ∧ extFull g sol row ext := by
  intro tail
  induction tail with
  | nil =>
    intro sol row hinv hval
    obtain ⟨hrow8, hmap, _, _⟩ := hinv
    obtain ⟨hvmap, _, _⟩ := hval
    simp only [List.append_nil] at hvmap
    have h8 : row = 8 := by
      have := congrArg List.length hvmap
      have h2 := congrArg List.length hmap
      simp at this h2
      omega
    subst h8
    exact ⟨[], rfl, by simp [extFull, extOk]⟩
  | cons q rest ih =>
    intro sol row hinv hval
    obtain ⟨hrow8, hmap, hcols, hpw⟩ := hinv
    obtain ⟨hvmap, hvcols, hvpw⟩ := hval
    have hlen : sol.length = row := by
      have := congrArg List.length hmap
      simpa using this
    have hrowlt : row < 8 := by
      have := congrArg List.length hvmap
      simp [hlen] at this
      omega
    have hqrow : q.row = row := by
      have hget : (sol ++ q :: rest).map Cell.row = List.range 8 := hvmap
      have h1 : ((sol ++ q :: rest).map Cell.row).getD row 0 = q.row := by
        rw [List.map_append]
        rw [List.getD_eq_getElem?_getD, List.getElem?_append_right (by simp [hlen])]
        simp [hlen, hmap]
      rw [hget] at h1
      simp only [List.getD_eq_getElem?_getD, List.getElem?_range hrowlt] at h1
      exact h1.symm
    have hq : q = ⟨row, q.col⟩ := by
      cases q
      simp_all
    have hinv1 : PartialInv g (row + 1) (sol ++ [q]) := by
      refine ⟨by omega, ?_, ?_, ?_⟩
      · simp [hmap, hqrow, List.range_succ]
      · intro p hp
        rcases List.mem_append.mp hp with hp | hp
        · exact hcols p hp
        · simp only [List.mem_singleton] at hp
          subst hp
          exact hvcols p (by simp)
      · have hsub : (sol ++ [q]).Sublist (sol ++ q :: rest) :=
          List.Sublist.append_left (by simp) sol
        exact hvpw.sublist hsub
    have hval1 : validAssignment g ((sol ++ [q]) ++ rest) := by
      rw [List.append_assoc]
      exact ⟨hvmap, hvcols, hvpw⟩
    obtain ⟨ext, hext, hfull⟩ := ih (sol ++ [q]) (row + 1) hinv1 hval1
    refine ⟨q.col :: ext, ?_, ?_, ?_, ?_⟩
    · simp only [extCells]
      rw [← hq, ← hext]
    · obtain ⟨hl, _, _⟩ := hfull
      simp only [List.length_cons, hl]
      omega
    · intro x hx
      rcases List.mem_cons.mp hx with hx | hx
      · subst hx
        exact hvcols q (by simp)
      · exact hfull.2.1 x hx
    · simp only [extOk, Bool.and_eq_true]
      constructor
      · rw [okCell_iff]
        have hcross : ∀ a ∈ sol, constraintP g a q := by
          intro a ha
          have := (List.pairwise_append.mp hvpw).2.2 a ha q (by simp)
          exact this
        refine ⟨?_, ?_, ?_⟩
        · intro a ha
          exact (hcross a ha).1
        · intro a ha
          have := (hcross a ha).2.1
          rwa [hqrow] at this
        · intro a ha
          have := (hcross a ha).2.2
          intro hd
          apply this
          unfold diagConflict at hd ⊢
          rw [hqrow]
          simpa using hd
      · have h9 := hfull.2.2
        rw [← hq]
        exact h9

theorem extFull_cons (g : RegionsGrid) (sol : List Cell) (row c : Nat) (rest : List Nat)
    (h : extFull g sol row (c :: rest)) :
    okCell g sol row c = true ∧ c < 8 ∧ row < 8 ∧
      extFull g (sol ++ [⟨row, c⟩]) (row + 1) rest := by
  obtain ⟨hlen, hbnd, hok⟩ := h
  simp only [List.length_cons] at hlen
  simp only [extOk, Bool.and_eq_true] at hok
  refine ⟨hok.1, hbnd c (by simp), by omega, by omega, ?_, hok.2⟩
  intro x hx
  exact hbnd x (by simp [hx])

theorem extFull_cons_of (g : RegionsGrid) (sol : List Cell) (row c : Nat) (rest : List Nat)
    (hok : okCell g sol row c = true) (hc : c < 8) (hrow : row < 8)
    (h : extFull g (sol ++ [⟨row, c⟩]) (row + 1) rest) :
    extFull g sol row (c :: rest) := by
  obtain ⟨hlen, hbnd, hokr⟩ := h
  refine ⟨by simp only [List.length_cons, hlen]; omega, ?_, ?_⟩
  · intro x hx
    rcases List.mem_cons.mp hx with hx | hx
    · subst hx
      exact hc
    · exact hbnd x hx
  · simp only [extOk, Bool.and_eq_true]
    exact ⟨hok, hokr⟩

theorem lexLE_cons_of_eq (c : Nat) (a b : List Nat) (h : lexLE a b) :
    lexLE (c :: a) (c :: b) := by
  rcases h with h | h
  · subst h
    exact Or.inl rfl
  · exact Or.inr (List.Lex.cons h)

theorem lexLE_cons_of_lt (c c2 : Nat) (a b : List Nat) (h : c < c2) :
    lexLE (c :: a) (c2 :: b) :=
  Or.inr (List.Lex.rel h)

theorem SearchInv_extend (g : RegionsGrid) (row col : Nat) (ur uc : List Nat)
    (ureg : List (Option Nat)) (sol : List Cell)
    (hinv : SearchInv g row ur uc ureg sol) (hrow : row < 8) (hcol : col < 8)
    (hguard : (uc.contains col || ureg.contains (cellAt g row col)) = false)
    (hatk : isUnderAttack row col sol = false) :
    okCell g sol row col = true ∧
    SearchInv g (row + 1) (row :: ur) (col :: uc) (cellAt g row col :: ureg)
      (sol ++ [⟨row, col⟩]) := by
  obtain ⟨⟨hr8, hmap, hcols, hpw⟩, hmr, hmc, hmg⟩ := hinv
  rw [Bool.or_eq_false_iff] at hguard
  obtain ⟨hgc, hgg⟩ := hguard
  have hnc : ∀ q ∈ sol, q.col ≠ col := by
    intro q hq hqc
    have : uc.contains col = true := (hmc col).mpr ⟨q, hq, hqc⟩
    rw [hgc] at this
    cases this
  have hng : ∀ q ∈ sol, cellAt g q.row q.col ≠ cellAt g row col := by
    intro q hq hqg
    have : ureg.contains (cellAt g row col) = true := (hmg _).mpr ⟨q, hq, hqg⟩
    rw [hgg] at this
    cases this
  have hnd : ∀ q ∈ sol, ¬diagConflict q ⟨row, col⟩ := by
    intro q hq hd
    unfold isUnderAttack at hatk
    rw [List.any_eq_false] at hatk
    have := hatk q hq
    unfold diagConflict at hd
    simp only [decide_eq_true_eq] at this
    exact this hd
  have hok : okCell g sol row col = true := (okCell_iff g sol row col).mpr ⟨hnc, hng, hnd⟩
  refine ⟨hok, ⟨by omega, ?_, ?_, ?_⟩, ?_, ?_, ?_⟩
  · simp [hmap, List.range_succ]
  · intro q hq
    rcases List.mem_append.mp hq with hq | hq
    · exact hcols q hq
    · simp only [List.mem_singleton] at hq
      subst hq
      exact hcol
  · rw [List.pairwise_append]
    refine ⟨hpw, by simp, ?_⟩
    intro a ha b hb
    simp only [List.mem_singleton] at hb
    subst hb
    exact ⟨hnc a ha, hng a ha, hnd a ha⟩
  · intro x
    rw [List.elem_iff, List.mem_cons, ← List.elem_iff, hmr x]
    constructor
    · rintro (h | ⟨q, hq, hqx⟩)
      · exact ⟨⟨row, col⟩, by simp, h.symm⟩
      · exact ⟨q, by simp [hq], hqx⟩
    · rintro ⟨q, hq, hqx⟩
      rcases List.mem_append.mp hq with hq | hq
      · exact Or.inr ⟨q, hq, hqx⟩
      · simp only [List.mem_singleton] at hq
        subst hq
        exact Or.inl hqx.symm
  · intro x
    rw [List.elem_iff, List.mem_cons, ← List.elem_iff, hmc x]
    constructor
    · rintro (h | ⟨q, hq, hqx⟩)
      · exact ⟨⟨row, col⟩, by simp, h.symm⟩
      · exact ⟨q, by simp [hq], hqx⟩
    · rintro ⟨q, hq, hqx⟩
      rcases List.mem_append.mp hq with hq | hq
      · exact Or.inr ⟨q, hq, hqx⟩
      · simp only [List.mem_singleton] at hq
        subst hq
        exact Or.inl hqx.symm
  · intro x
    rw [List.elem_iff, List.mem_cons, ← List.elem_iff, hmg x]
    constructor
    · rintro (h | ⟨q, hq, hqx⟩)
      · exact ⟨⟨row, col⟩, by simp, h.symm⟩
      · exact ⟨q, by simp [hq], hqx⟩
    · rintro ⟨q, hq, hqx⟩
      rcases List.mem_append.mp hq with hq | hq
      · exact Or.inr ⟨q, hq, hqx⟩
      · simp only [List.mem_singleton] at hq
        subst hq
        exact Or.inl hqx.symm

theorem searchMaster (g : RegionsGrid) : ∀ fuel : Nat,
    (∀ row ur uc ureg sol, SearchInv g row ur uc ureg sol →
      10 * (8 - row) + 9 ≤ fuel →
      (placeQueens g fuel row ur uc ureg sol = none → ¬∃ ext, extFull g sol row ext) ∧
      (∀ s, placeQueens g fuel row ur uc ureg sol = some s →
        ∃ ext, s = sol ++ extCells row ext ∧ extFull g sol row ext ∧
          ∀ ext2, extFull g sol row ext2 → lexLE ext ext2)) ∧
    (∀ row col ur uc ureg sol, SearchInv g row ur uc ureg sol → row < 8 →
      10 * (8 - row) + (8 - col) ≤ fuel →
      (tryCols g fuel row col ur uc ureg sol = none →
        ¬∃ ext, extFull g sol row ext ∧ col ≤ ext.headD 0) ∧
      (∀ s, tryCols g fuel row col ur uc ureg sol = some s →
        ∃ ext, s = sol ++ extCells row ext ∧ extFull g sol row ext ∧ col ≤ ext.headD 0 ∧
          ∀ ext2, extFull g sol row ext2 → col ≤ ext2.headD 0 → lexLE ext ext2)) := by
  intro fuel
  induction fuel with
  | zero =>
    constructor
    · intro row ur uc ureg sol _ hfl
      omega
    · intro row col ur uc ureg sol _ hrow hfl
      omega
  | succ fuel ih =>
    obtain ⟨ihP, ihT⟩ := ih
    have hTpart : ∀ row col ur uc ureg sol, SearchInv g row ur uc ureg sol → row < 8 →
        10 * (8 - row) + (8 - col) ≤ fuel + 1 →
        (tryCols g (fuel + 1) row col ur uc ureg sol = none →
          ¬∃ ext, extFull g sol row ext ∧ col ≤ ext.headD 0) ∧
        (∀ s, tryCols g (fuel + 1) row col ur uc ureg sol = some s →
          ∃ ext, s = sol ++ extCells row ext ∧ extFull g sol row ext ∧ col ≤ ext.headD 0 ∧
            ∀ ext2, extFull g sol row ext2 → col ≤ ext2.headD 0 → lexLE ext ext2) := by
      intro row col ur uc ureg sol hinv hrow hfl
      by_cases hcol : 8 ≤ col
      · have hE : tryCols g (fuel + 1) row col ur uc ureg sol = none := by
          simp only [tryCols]
          rw [if_pos hcol]
        rw [hE]
        constructor
        · intro _
          rintro ⟨ext, hfull, hh⟩
          cases ext with
          | nil =>
            have := hfull.1
            simp only [List.length_nil] at this
            omega
          | cons c0 rest =>
            have hc0 := hfull.2.1 c0 (by simp)
            simp only [List.headD_cons] at hh
            omega
        · intro s hs
          cases hs
      · -- col < 8
        have hredstep : tryCols g (fuel + 1) row col ur uc ureg sol
            = (if (uc.contains col || ureg.contains (cellAt g row col)) = true then
                 tryCols g fuel row (col + 1) ur uc ureg sol
               else if isUnderAttack row col sol = true then
                 tryCols g fuel row (col + 1) ur uc ureg sol
               else
                 match placeQueens g fuel (row + 1) (row :: ur) (col :: uc)
                     (cellAt g row col :: ureg) (sol ++ [⟨row, col⟩]) with
                 | some s => some s
                 | none => tryCols g fuel row (col + 1) ur uc ureg sol) := by
          simp only [tryCols]
          rw [if_neg hcol]
        -- the "skip this column" reasoning shared by the conflict branches
        have hskip : okCell g sol row col = false →
            tryCols g (fuel + 1) row col ur uc ureg sol
              = tryCols g fuel row (col + 1) ur uc ureg sol →
            (tryCols g (fuel + 1) row col ur uc ureg sol = none →
              ¬∃ ext, extFull g sol row ext ∧ col ≤ ext.headD 0) ∧
            (∀ s, tryCols g (fuel + 1) row col ur uc ureg sol = some s →
              ∃ ext, s = sol ++ extCells row ext ∧ extFull g sol row ext ∧
                col ≤ ext.headD 0 ∧
                ∀ ext2, extFull g sol row ext2 → col ≤ ext2.headD 0 → lexLE ext ext2) := by
          intro hokf hE
          have hnohead : ∀ ext, extFull g sol row ext → ext.headD 0 ≠ col := by
            intro ext hfull hh
            cases ext with
            | nil =>
              have := hfull.1
              simp only [List.length_nil] at this
              omega
            | cons c0 rest =>
              simp only [List.headD_cons] at hh
              subst hh
              have := (extFull_cons g sol row c0 rest hfull).1
              rw [hokf] at this
              cases this
          have iht := ihT row (col + 1) ur uc ureg sol hinv hrow (by omega)
          constructor
          · intro hnone
            rw [hE] at hnone
            have hn := iht.1 hnone
            rintro ⟨ext, hfull, hh⟩
            have := hnohead ext hfull
            exact hn ⟨ext, hfull, by omega⟩
          · intro s hs
            rw [hE] at hs
            obtain ⟨ext, h1, h2, h3, h4⟩ := iht.2 s hs
            refine ⟨ext, h1, h2, by omega, ?_⟩
            intro ext2 hfull2 hh2
            have := hnohead ext2 hfull2
            exact h4 ext2 hfull2 (by omega)
        by_cases hguard : (uc.contains col || ureg.contains (cellAt g row col)) = true
        · refine hskip ?_ (by rw [hredstep, if_pos hguard])
          rw [Bool.eq_false_iff]
          intro hok
          rw [okCell_iff] at hok
          rcases Bool.or_eq_true_iff.mp hguard with hcu | hgu
          · obtain ⟨q, hq, hqc⟩ := (hinv.2.2.1 col).mp hcu
            exact hok.1 q hq hqc
          · obtain ⟨q, hq, hqg⟩ := (hinv.2.2.2 _).mp hgu
            exact hok.2.1 q hq hqg
        · by_cases hatk : isUnderAttack row col sol = true
          · refine hskip ?_ ?_
            · unfold okCell
              rw [hatk]
              simp
            · rw [hredstep, if_neg hguard, if_pos hatk]
          · -- admissible column: recurse into the next row
            rw [Bool.not_eq_true] at hguard hatk
            obtain ⟨hok, hinv2⟩ := SearchInv_extend g row col ur uc ureg sol hinv hrow
              (by omega) hguard hatk
            have ihp2 := ihP (row + 1) (row :: ur) (col :: uc) (cellAt g row col :: ureg)
              (sol ++ [⟨row, col⟩]) hinv2 (by omega)
            have hext_of_headcol : ∀ rest, extFull g sol row (col :: rest) →
                extFull g (sol ++ [⟨row, col⟩]) (row + 1) rest := by
              intro rest hfull
              exact (extFull_cons g sol row col rest hfull).2.2.2
            cases hpq : placeQueens g fuel (row + 1) (row :: ur) (col :: uc)
                (cellAt g row col :: ureg) (sol ++ [⟨row, col⟩]) with
            | some s0 =>
              have hE : tryCols g (fuel + 1) row col ur uc ureg sol = some s0 := by
                rw [hredstep, if_neg (by rw [hguard]; simp),
                  if_neg (by rw [hatk]; simp), hpq]
              rw [hE]
              constructor
              · intro h
                cases h
              · intro s hs
                have hss : s = s0 := (Option.some.inj hs).symm
                subst hss
                obtain ⟨ext2, hs0, hfull2, hmin2⟩ := ihp2.2 _ hpq
                refine ⟨col :: ext2, ?_, ?_, by simp, ?_⟩
                · rw [hs0]
                  simp [extCells, List.append_assoc]
                · exact extFull_cons_of g sol row col ext2 hok (by omega) hrow hfull2
                · intro ext3 hfull3 hh3
                  cases ext3 with
                  | nil =>
                    have := hfull3.1
                    simp only [List.length_nil] at this
                    omega
                  | cons c3 rest3 =>
                    simp only [List.headD_cons] at hh3
                    rcases Nat.lt_or_ge col c3 with hlt | hge
                    · exact lexLE_cons_of_lt col c3 ext2 rest3 hlt
                    · have hc3 : c3 = col := by omega
                      subst hc3
                      have hrest3 := hext_of_headcol rest3 hfull3
                      exact lexLE_cons_of_eq c3 ext2 rest3 (hmin2 rest3 hrest3)
            | none =>
              have hE : tryCols g (fuel + 1) row col ur uc ureg sol
                  = tryCols g fuel row (col + 1) ur uc ureg sol := by
                rw [hredstep, if_neg (by rw [hguard]; simp),
                  if_neg (by rw [hatk]; simp), hpq]
              have hnoext2 := ihp2.1 hpq
              have hnohead : ∀ ext, extFull g sol row ext → ext.headD 0 ≠ col := by
                intro ext hfull hh
                cases ext with
                | nil =>
                  have := hfull.1
                  simp only [List.length_nil] at this
                  omega
                | cons c0 rest =>
                  simp only [List.headD_cons] at hh
                  subst hh
                  exact hnoext2 ⟨rest, hext_of_headcol rest hfull⟩
              have iht := ihT row (col + 1) ur uc ureg sol hinv hrow (by omega)
              rw [hE]
              constructor
              · intro hnone
                have hn := iht.1 hnone
                rintro ⟨ext, hfull, hh⟩
                have := hnohead ext hfull
                exact hn ⟨ext, hfull, by omega⟩
              · intro s hs
                obtain ⟨ext, h1, h2, h3, h4⟩ := iht.2 s hs
                refine ⟨ext, h1, h2, by omega, ?_⟩
                intro ext2 hfull2 hh2
                have := hnohead ext2 hfull2
                exact h4 ext2 hfull2 (by omega)
    constructor
    · intro row ur uc ureg sol hinv hfl
      by_cases hrow8 : 8 ≤ row
      · have hE : placeQueens g (fuel + 1) row ur uc ureg sol = some sol := by
          simp only [placeQueens]
          rw [if_pos hrow8]
        rw [hE]
        constructor
        · intro h
          cases h
        · intro s hs
          have hss : sol = s := Option.some.inj hs
          subst hss
          have hrow8e : row = 8 := by
            have := hinv.1.1
            omega
          refine ⟨[], by simp [extCells], ⟨?_, by simp, rfl⟩, ?_⟩
          · simp [hrow8e]
          · intro ext2 hfull2
            have hl := hfull2.1
            rw [hrow8e] at hl
            simp only [Nat.sub_self] at hl
            rw [List.length_eq_zero] at hl
            subst hl
            exact lexLE_refl []
      · have hcont : ur.contains row = false := by
          rw [Bool.eq_false_iff]
          intro h
          obtain ⟨q, hq, hqr⟩ := (hinv.2.1 row).mp h
          have hmem : q.row ∈ List.range row := by
            rw [← hinv.1.2.1]
            exact List.mem_map_of_mem Cell.row hq
          rw [List.mem_range] at hmem
          omega
        have hE : placeQueens g (fuel + 1) row ur uc ureg sol
            = tryCols g fuel row 0 ur uc ureg sol := by
          simp only [placeQueens]
          rw [if_neg hrow8, if_neg (by rw [hcont]; simp)]
        rw [hE]
        have iht := ihT row 0 ur uc ureg sol hinv (by omega) (by omega)
        constructor
        · intro hnone
          have hn := iht.1 hnone
          rintro ⟨ext, hfull⟩
          exact hn ⟨ext, hfull, by omega⟩
        · intro s hs
          obtain ⟨ext, h1, h2, _, h4⟩ := iht.2 s hs
          exact ⟨ext, h1, h2, fun ext2 hfull2 => h4 ext2 hfull2 (by omega)⟩
    · exact hTpart

/-- C5: for every regions grid, any non-`none` result of `findSolution` is a
valid assignment — exactly 8 cells, one per row 0..7 in order, columns on the
board, pairwise distinct columns, pairwise distinct region ids and no two
cells on a common diagonal at any distance (`validAssignment`); `findSolution`
returns `none` exactly when no valid assignment exists for the partition; and
because the search tries columns in ascending order row by row, the returned
assignment is lexicographically first (column-wise) among all valid
assignments. -/
theorem findSolution_spec (g : RegionsGrid) :
    (∀ s, findSolution g = some s → validAssignment g s) ∧
    (findSolution g = none ↔ ¬∃ s, validAssignment g s) ∧
    (∀ s t, findSolution g = some s → validAssignment g t →
      lexLE (s.map Cell.col) (t.map Cell.col)) := by
  have hpinv0 : PartialInv g 0 [] := ⟨by omega, rfl, by simp, List.Pairwise.nil⟩
  have hinv0 : SearchInv g 0 [] [] [] [] := by
    refine ⟨hpinv0, ?_, ?_, ?_⟩ <;> intro x <;> simp
  have hP := (searchMaster g 128).1 0 [] [] [] [] hinv0 (by omega)
  have hsound : ∀ s, findSolution g = some s → validAssignment g s := by
    intro s hs
    unfold findSolution at hs
    obtain ⟨ext, hse, hfull, _⟩ := hP.2 s hs
    rw [hse]
    exact extFull_validAssignment g ext [] 0 hpinv0 hfull
  refine ⟨hsound, ⟨?_, ?_⟩, ?_⟩
  · intro hnone
    rintro ⟨t, hval⟩
    apply hP.1 hnone
    obtain ⟨ext, _, hfull⟩ := validAssignment_decomp g t [] 0 hpinv0 (by simpa using hval)
    exact ⟨ext, hfull⟩
  · intro hne
    cases hres : findSolution g with
    | none => rfl
    | some s => exact absurd ⟨s, hsound s hres⟩ hne
  · intro s t hs hval
    unfold findSolution at hs
    obtain ⟨ext, hse, hfull, hmin⟩ := hP.2 s hs
    obtain ⟨ext2, hte, hfull2⟩ :=
      validAssignment_decomp g t [] 0 hpinv0 (by simpa using hval)
    have h1 : s.map Cell.col = ext := by
      rw [hse]
      simp [extCells_map_col]
    have h2 : t.map Cell.col = ext2 := by
      rw [hte]
      simp [extCells_map_col]
    rw [h1, h2]
    exact hmin ext2 hfull2

/-- Witness for C5 at the concrete partition `gridC8`: the solver result
`solC8` is a valid assignment and is lexicographically minimal among valid
assignments (instantiated against itself). -/
theorem findSolution_spec_witness :
    validAssignment gridC8 solC8 ∧ lexLE (solC8.map Cell.col) (solC8.map Cell.col) := by
  have h := findSolution_spec gridC8
  have hs : findSolution gridC8 = some solC8 := by decide
  exact ⟨h.1 solC8 hs, h.2.2 solC8 solC8 hs (h.1 solC8 hs)⟩

/-! ## Replay agreement (C8) -/

theorem replayAccepts_of_pairwise (b : Board) :
    ∀ tail placed,
      (placed ++ tail).Pairwise (fun a c => a.row ≠ c.row ∧ constraintP b.regions a c) →
      replayAccepts b placed tail = true := by
  intro tail
  induction tail with
  | nil =>
    intro placed _
    rfl
  | cons c rest ih =>
    intro placed hpw
    have hcross : ∀ a ∈ placed, a.row ≠ c.row ∧ constraintP b.regions a c := by
      intro a ha
      exact (List.pairwise_append.mp hpw).2.2 a ha c (by simp)
    simp only [replayAccepts, Bool.and_eq_true]
    constructor
    · have h1 : (placed.any fun q => q.row = c.row) = false := by
        rw [List.any_eq_false]
        intro a ha
        simp only [decide_eq_true_eq]
        exact (hcross a ha).1
      have h2 : (placed.any fun q => q.col = c.col) = false := by
        rw [List.any_eq_false]
        intro a ha
        simp only [decide_eq_true_eq]
        exact (hcross a ha).2.1
      have h3 : (placed.any fun q =>
          cellAt b.regions q.row q.col = cellAt b.regions c.row c.col) = false := by
        rw [List.any_eq_false]
        intro a ha
        simp only [decide_eq_true_eq]
        exact (hcross a ha).2.2.1
      have h4 : (placed.any fun q =>
          ((q.row : Int) - (c.row : Int)).natAbs
            = ((q.col : Int) - (c.col : Int)).natAbs) = false := by
        rw [List.any_eq_false]
        intro a ha
        simp only [decide_eq_true_eq]
        exact (hcross a ha).2.2.2
      have hok : validateQueenPlacement b c.row c.col placed = ValResult.ok := by
        unfold validateQueenPlacement
        rw [h1]
        rw [if_neg (by simp)]
        rw [h2]
        rw [if_neg (by simp)]
        rw [h3]
        rw [if_neg (by simp)]
        rw [h4]
        rw [if_neg (by simp)]
      simp [hok]
    · apply ih (placed ++ [c])
      rw [List.append_assoc]
      simpa using hpw

/-- C8: for every board produced by the generator, replaying the board's
solution cells through `validateQueenPlacement` in row order — validating each
cell against the set of earlier solution cells — never returns a rejection. -/
theorem solution_replay_never_rejected (sf fuel : Nat) (r : Rand) (b : Board)
    (sol : List Cell)
    (h1 : (generatePuzzleBoard sf fuel r).1 = some b)
    (h2 : b.solution = some sol) :
    replayAccepts b [] sol = true := by
  unfold generatePuzzleBoard at h1
  rcases hg : generateRegions sf fuel r with ⟨o, r1⟩
  rw [hg] at h1
  cases o with
  | none => cases h1
  | some g =>
    simp only [Option.some.injEq] at h1
    subst h1
    simp only at h2
    have hval : validAssignment g sol := (findSolution_spec g).1 sol h2
    obtain ⟨hmap, _, hpw⟩ := hval
    have hrows : sol.Pairwise fun a c => a.row ≠ c.row := by
      apply List.pairwise_map.mp
      rw [hmap]
      exact List.nodup_range 8
    have hq : sol.Pairwise fun a c => a.row ≠ c.row ∧ constraintP g a c :=
      hrows.and hpw
    have := replayAccepts_of_pairwise ⟨g, findSolution g⟩ sol [] (by simpa using hq)
    exact this

/-- Witness for C8 at the concrete draws `c8list`: the produced board is `bC8`
with solution `solC8`, and the replay accepts every step. -/
theorem solution_replay_never_rejected_witness :
    (generatePuzzleBoard 64 16 (streamOf c8list)).1 = some bC8 ∧
    bC8.solution = some solC8 ∧
    replayAccepts bC8 [] solC8 = true :=
  ⟨by decide, rfl,
   solution_replay_never_rejected 64 16 (streamOf c8list) bC8 solC8 (by decide) rfl⟩

end QueensGame
